import Mathlib

/-!
Shallow embedding of `publisher/models.py` (django-model-publisher), the
draft/publish versioning engine: record identity and state, the dirtiness
check (`is_dirty`, `check_reverse_foreign_keys_dirty`,
`check_reverse_m2m_dirty`), the graph cloner (`clone_relations`,
`clone_translations`) and the state machine (`publish`, `unpublish`,
`revert_to_public`).

Modelling conventions:
* Machine timestamps (`timezone.now`) are drawn from a strictly increasing
  `Nat` clock carried by the store; each call reads the clock and ticks it.
* Rows live in a list keyed by `pk`; related child rows (reverse one-to-many
  and many-to-many items) are stored inline as forests under their owning
  row, which mirrors ownership: deleting a row deletes its owned children
  (FK cascade), and a freshly inserted row owns no children.
* Fallible code (a Python exception, or non-termination of a recursion) is
  modelled as `none`; every operation that can reach such code returns an
  `Option`.
* The store does not enforce the database-level uniqueness of the
  one-to-one `publisher_linked` column; the engine's own logic is modelled
  exactly, and constraint enforcement by the backend is noted in comments
  where it would fire.
* The `@assert_draft` decorator comes from `publisher/utils.py`, which is
  not part of the sources under scrutiny; the definitions below model the
  undecorated method bodies, whose own guards (models.py lines 106-110,
  146-147, 164-165) are the in-method state checks.
* Instances are taken to be synchronized with their stored row when an
  operation starts (single-writer discipline); the re-fetch at models.py
  line 120 therefore yields an identical copy.
-/

namespace Publisher

/-- A related child row (a reverse one-to-many or many-to-many item, e.g. an
attached block). Child rows carry `created`/`modified` timestamps used by the
dirtiness check, a content field, and their own nested child collections —
the owned object graph, assumed acyclic by schema design. -/
inductive Child : Type where
  | mk (cid created modified content : Nat) (fk m2m : List Child)

def Child.cid : Child → Nat
  | .mk i _ _ _ _ _ => i

def Child.created : Child → Nat
  | .mk _ c _ _ _ _ => c

def Child.modified : Child → Nat
  | .mk _ _ m _ _ _ => m

def Child.content : Child → Nat
  | .mk _ _ _ v _ _ => v

def Child.fkChildren : Child → List Child
  | .mk _ _ _ _ f _ => f

def Child.m2mChildren : Child → List Child
  | .mk _ _ _ _ _ m => m

/-- A versioned record (a `PublisherModel` row): identity, the draft flag,
the one-to-one forward link, the two publisher timestamps, a generic content
field standing for the model's user data, plus its owned related rows. -/
structure PRecord where
  pk : Nat
  publisher_is_draft : Bool
  publisher_linked : Option Nat
  publisher_modified_at : Nat
  publisher_published_at : Option Nat
  content : Nat
  fkChildren : List Child
  m2mChildren : List Child
  translations : List (Nat × Nat)

/-- The four lifecycle signals of `publisher/signals.py`. -/
inductive Signal : Type where
  | preSaveDraft
  | postPublish
  | preUnpublish
  | postUnpublish
deriving DecidableEq

/-- The persistent state: the row table, the fresh-identity counter of the
storage layer, the wall clock, and the log of emitted lifecycle signals. -/
structure Store where
  recs : List PRecord
  nextId : Nat
  clock : Nat
  signals : List Signal

/-- Read a row by primary key (first match). -/
def lookupRec : List PRecord → Nat → Option PRecord
  | [], _ => none
  | r :: rest, pk => if r.pk = pk then some r else lookupRec rest pk

/-- Write a row: replace the first row with the same pk, or append the row
when no row with that pk exists (Django `save` updates then inserts). -/
def setRowList : List PRecord → PRecord → List PRecord
  | [], r => [r]
  | q :: rest, r => if q.pk = r.pk then r :: rest else q :: setRowList rest r

/-- Delete every row with the given pk (the pk is unique in a well-formed
store). Owned child rows vanish with their row (FK cascade). -/
def deleteRowList : List PRecord → Nat → List PRecord
  | [], _ => []
  | r :: rest, pk =>
    if r.pk = pk then deleteRowList rest pk else r :: deleteRowList rest pk

def Store.get (s : Store) (pk : Nat) : Option PRecord :=
  lookupRec s.recs pk

def Store.setRow (s : Store) (r : PRecord) : Store :=
  { s with recs := setRowList s.recs r }

def Store.insertRow (s : Store) (r : PRecord) : Store :=
  { s with recs := s.recs ++ [r] }

def Store.deleteRow (s : Store) (pk : Nat) : Store :=
  { s with recs := deleteRowList s.recs pk }

/-- One call of `timezone.now()` advances the clock. -/
def Store.tick (s : Store) : Store :=
  { s with clock := s.clock + 1 }

def Store.emit (s : Store) (g : Signal) : Store :=
  { s with signals := s.signals ++ [g] }

/-- `PublisherModel.save` (models.py lines 244-248): unless suppressed,
`update_modified_at` stamps the record with `timezone.now()` before the row
is written. -/
def saveRecord (s : Store) (r : PRecord) (suppress : Bool) : Store :=
  if suppress then s.setRow r
  else (s.tick).setRow { r with publisher_modified_at := s.clock }

/-- The child-edit delta `item.modified - item.created` (models.py lines
87, 98), as a signed quantity like `timedelta.total_seconds()`. -/
def tdelta (c : Child) : Int :=
  (c.modified : Int) - (c.created : Int)

/-- Models the recursive call `self.check_reverse_foreign_keys_dirty(item)`
at models.py line 90: the callee iterates the reverse one-to-many relations
of `obj = item` (line 82) but fetches each relation's items from `self`
(line 85, `getattr(self, relation.get_accessor_name(), None)`). For the
generic schema, where a child type's accessor names do not exist on the
parent model, that `getattr` yields `None` and `None.all()` raises
`AttributeError` as soon as `item` has any one-to-many relation of its own;
when `item` has none, the loop body never runs and the call returns
`False`. (A relation that is declared but empty also raises; the model
identifies "has a one-to-many relation" with "has one-to-many child rows",
which is the case exercised everywhere below.) -/
def fkRecurObj (item : Child) : Option Bool :=
  if item.fkChildren.isEmpty then some false else none

/-- The loop body of `check_reverse_foreign_keys_dirty` (models.py lines
86-90) over the items of `self`'s reverse one-to-many collections: a child
whose `modified - created` exceeds 5 seconds returns `True`; otherwise the
recursive call of line 90 runs — its `AttributeError` propagates, but its
return value is discarded, so a clean scan falls through to `False`. -/
def fkGo : List Child → Option Bool
  | [] => some false
  | c :: rest =>
    if tdelta c > 5 then some true
    else
      match fkRecurObj c with
      | none => none
      | some _ => fkGo rest

/-- `check_reverse_foreign_keys_dirty(self, obj=self)` as called from
`is_dirty` (models.py line 73): scans `self`'s direct one-to-many items. -/
def check_reverse_foreign_keys_dirty (self : PRecord) : Option Bool :=
  fkGo self.fkChildren

mutual

/-- `check_reverse_m2m_dirty` (models.py lines 93-102), fuelled because the
source recursion need not terminate: the function ignores its `obj`
argument entirely — line 94 reads `self._meta` and line 96 reads
`getattr(self, ...)` — so the recursive call at line 101 repeats the call
it is already inside with identical arguments. `none` models
non-termination (a `RecursionError` in CPython). -/
def check_reverse_m2m_dirty (self : PRecord) (fuel : Nat) : Option Bool :=
  match fuel with
  | 0 => none
  | f + 1 => m2mGo self self.m2mChildren f
termination_by (fuel, 0, 0)

/-- The item loop of `check_reverse_m2m_dirty` (models.py lines 97-101)
over `self`'s many-to-many items: over-threshold returns `True`, otherwise
the self-identical recursive call of line 101 runs (divergence propagates,
its value is discarded) and the scan continues. -/
def m2mGo (self : PRecord) (l : List Child) (fuel : Nat) : Option Bool :=
  match l with
  | [] => some false
  | c :: rest =>
    if tdelta c > 5 then some true
    else
      match check_reverse_m2m_dirty self fuel with
      | none => none
      | some _ => m2mGo self rest fuel
termination_by (fuel, 1, l.length)

end

/-- The value `check_reverse_m2m_dirty(self, self)` actually computes, for
every sufficient fuel (proved below as `check_reverse_m2m_dirty_eq`): no
many-to-many items gives `False`; a first item over the 5-second threshold
gives `True`; a first item at or under the threshold makes the call diverge
(the line-101 recursion repeats the identical call). -/
def m2mResult (self : PRecord) : Option Bool :=
  match self.m2mChildren with
  | [] => some false
  | c :: _ => if tdelta c > 5 then some true else none

/-- `is_dirty` (models.py lines 60-79): non-drafts are never dirty; a draft
with no link is dirty; a draft saved after its published counterpart is
dirty; otherwise the two related-record checks run in order. A dangling
link (the linked row missing from storage) and any failure inside the two
checks surface as `none`. -/
def is_dirty (s : Store) (self : PRecord) : Option Bool :=
  if !self.publisher_is_draft then some false
  else
    match self.publisher_linked with
    | none => some true
    | some lpk =>
      match s.get lpk with
      | none => none
      | some linked =>
        if linked.publisher_modified_at < self.publisher_modified_at then
          some true
        else
          match check_reverse_foreign_keys_dirty self with
          | none => none
          | some true => some true
          | some false => m2mResult self

mutual

/-- One iteration of the clone loops (models.py lines 214-219 and 223-228):
`deepcopy` the item, drop its identity, re-parent it, save it as a fresh
row, then clone the item's own owned children onto the new copy. The fresh
identity comes from the storage counter threaded through. -/
def cloneChild (c : Child) (fresh : Nat) : Child × Nat :=
  match c with
  | .mk _ cr mo co fk m2m =>
    let fkPair := cloneForest fk (fresh + 1)
    let m2mPair := cloneForest m2m fkPair.2
    (Child.mk fresh cr mo co fkPair.1 m2mPair.1, m2mPair.2)

/-- Clone every item of one related collection in order. -/
def cloneForest (cs : List Child) (fresh : Nat) : List Child × Nat :=
  match cs with
  | [] => ([], fresh)
  | c :: rest =>
    let cPair := cloneChild c fresh
    let restPair := cloneForest rest cPair.2
    (cPair.1 :: restPair.1, restPair.2)

end

/-- `clone_relations(src_obj, dst_obj)` (models.py lines 203-228): duplicate
the source's reverse one-to-many items, then its many-to-many items, each
duplicate re-parented to the destination and recursively given duplicated
descendants. Only new rows are created; they are attached to (appended
under) the destination row. Source rows are read, never written. -/
def clone_relations (s : Store) (srcPk dstPk : Nat) : Store :=
  match s.get srcPk, s.get dstPk with
  | some src, some dst =>
    let fkPair := cloneForest src.fkChildren s.nextId
    let m2mPair := cloneForest src.m2mChildren fkPair.2
    ({ s with nextId := m2mPair.2 }).setRow
      { dst with
        fkChildren := dst.fkChildren ++ fkPair.1
        m2mChildren := dst.m2mChildren ++ m2mPair.1 }
  | _, _ => s

/-- Clone the translation rows, assigning fresh identities. Each
translation keeps its content and is re-mastered to the destination
(models.py lines 198-201: `translation.pk = None; translation.master =
dst_obj; translation.save()` inserts a new row and leaves the original row
in storage untouched). -/
def cloneTransList (ts : List (Nat × Nat)) (fresh : Nat) :
    List (Nat × Nat) × Nat :=
  match ts with
  | [] => ([], fresh)
  | t :: rest =>
    let restPair := cloneTransList rest (fresh + 1)
    ((fresh, t.2) :: restPair.1, restPair.2)

/-- `clone_translations` (models.py lines 195-201). -/
def clone_translations (s : Store) (srcPk dstPk : Nat) : Store :=
  match s.get srcPk, s.get dstPk with
  | some src, some dst =>
    let tPair := cloneTransList src.translations s.nextId
    ({ s with nextId := tPair.2 }).setRow
      { dst with translations := dst.translations ++ tPair.1 }
  | _, _ => s

/-- The effect branch of `publish` (models.py lines 112-142), taken once
the draft and dirtiness guards have passed, with `self` the stored draft
row.

Step by step against the source: set `publisher_published_at` on a first
publish (lines 116-117, one `timezone.now()` call); re-fetch the stored row
and empty exactly the `publisher_publish_empty_fields`, i.e. `pk` and `id`
(lines 120-122) — note that `publisher_linked` is carried over unchanged;
flip the copy to published and carry the draft's `publisher_published_at`
(lines 123-124); save the copy (line 127) — an insert under a fresh
identity, stamped by `update_modified_at`, owning no related rows yet;
clone translations then relations onto it (lines 130-133); point the draft
at the copy (line 136); emit the pre-save-draft signal, save the draft with
the modified stamp suppressed, emit the post-publish signal (lines
138-142). The previous published row, if any, is never deleted. (On a
backend enforcing the one-to-one uniqueness of `publisher_linked`, the
insert at line 127 would instead raise `IntegrityError` whenever the
carried-over link is set, since the draft row still holds the same value.) -/
def publishBody (s : Store) (pk : Nat) (self : PRecord) : Store :=
  let draftPair :
      PRecord × Store :=
    match self.publisher_linked with
    | none => ({ self with publisher_published_at := some s.clock }, s.tick)
    | some _ => (self, s)
  let draft₁ := draftPair.1
  let s₁ := draftPair.2
  let newPk := s₁.nextId
  let pubObj : PRecord :=
    { pk := newPk
      publisher_is_draft := false
      publisher_linked := self.publisher_linked
      publisher_modified_at := s₁.clock
      publisher_published_at := draft₁.publisher_published_at
      content := self.content
      fkChildren := []
      m2mChildren := []
      translations := [] }
  let s₂ := (({ s₁ with nextId := s₁.nextId + 1 }).tick).insertRow pubObj
  let s₃ := clone_translations s₂ pk newPk
  let s₄ := clone_relations s₃ pk newPk
  let draft₂ := { draft₁ with publisher_linked := some newPk }
  let s₅ := s₄.emit .preSaveDraft
  let s₆ := saveRecord s₅ draft₂ true
  s₆.emit .postPublish

/-- `publish` (models.py lines 104-142): no-op on a non-draft (line
106-107) and on a clean draft (lines 109-110); a failure inside `is_dirty`
propagates. Invoked on a pk with no stored row, nothing happens (operations
are methods of persisted instances). -/
def publish (s : Store) (pk : Nat) : Option Store :=
  match s.get pk with
  | none => some s
  | some self =>
    if !self.publisher_is_draft then some s
    else
      match is_dirty s self with
      | none => none
      | some false => some s
      | some true => some (publishBody s pk self)

/-- `unpublish` (models.py lines 144-154): no-op unless the record is a
draft with a link; otherwise emit pre-unpublish, delete the linked
published row, clear the link and `publisher_published_at`, save (with the
modified stamp updated), emit post-unpublish. -/
def unpublish (s : Store) (pk : Nat) : Store :=
  match s.get pk with
  | none => s
  | some self =>
    if !self.publisher_is_draft then s
    else
      match self.publisher_linked with
      | none => s
      | some lpk =>
        let s₁ := s.emit .preUnpublish
        let s₂ := s₁.deleteRow lpk
        let self₁ :=
          { self with
            publisher_linked := none
            publisher_published_at := none }
        let s₃ := saveRecord s₂ self₁ false
        s₃.emit .postUnpublish

/-- `revert_to_public` (models.py lines 156-183): no-op returning `none`
(Python `None`) when there is no link — note the body checks only the link,
not the draft flag. Otherwise: detach the draft (clear its link, save) and
delete its row; promote the formerly linked published record to a draft and
save it; `publish` it; return it (the stored promoted row, which `publish`
has just linked to a fresh published counterpart). A dangling link is a
failure (`none` result). -/
def revert_to_public (s : Store) (pk : Nat) :
    Option (Store × Option PRecord) :=
  match s.get pk with
  | none => some (s, none)
  | some self =>
    match self.publisher_linked with
    | none => some (s, none)
    | some lpk =>
      match s.get lpk with
      | none => none
      | some pub =>
        let draft₁ := { self with publisher_linked := none }
        let s₁ := saveRecord s draft₁ false
        let s₂ := s₁.deleteRow pk
        let promoted := { pub with publisher_is_draft := true }
        let s₃ := saveRecord s₂ promoted false
        match publish s₃ lpk with
        | none => none
        | some s₄ => some (s₄, s₄.get lpk)

mutual

/-- All row identities in a child subtree. -/
def childIds : Child → List Nat
  | .mk i _ _ _ fk m2m => i :: (childIdsList fk ++ childIdsList m2m)

def childIdsList : List Child → List Nat
  | [] => []
  | c :: cs => childIds c ++ childIdsList cs

end

/-- All child-row identities owned by a record. -/
def recordChildIds (r : PRecord) : List Nat :=
  childIdsList r.fkChildren ++ childIdsList r.m2mChildren

/-- Child-row identities owned by the row of a lookup result. -/
def rowChildIds (o : Option PRecord) : List Nat :=
  o.elim [] recordChildIds

mutual

/-- Overwrite the content field of the child row with the given identity,
wherever it sits in a subtree. -/
def setChildContent (c : Child) (cid v : Nat) : Child :=
  match c with
  | .mk i cr mo co fk m2m =>
    Child.mk i cr mo (if i = cid then v else co)
      (setForestContent fk cid v) (setForestContent m2m cid v)

def setForestContent (cs : List Child) (cid v : Nat) : List Child :=
  match cs with
  | [] => []
  | c :: rest => setChildContent c cid v :: setForestContent rest cid v

end

/-- An edit of one child row, by identity, across the whole store. -/
def updateChildRow (s : Store) (cid v : Nat) : Store :=
  { s with
    recs := s.recs.map fun r =>
      { r with
        fkChildren := setForestContent r.fkChildren cid v
        m2mChildren := setForestContent r.m2mChildren cid v } }

/-- Store sanity: primary keys are unique, and every identity and timestamp
already in use is below the storage counter resp. the clock. -/
def Store.WF (s : Store) : Prop :=
  (s.recs.map PRecord.pk).Nodup ∧
    ∀ r ∈ s.recs,
      r.pk < s.nextId ∧
        r.publisher_modified_at < s.clock ∧
          ∀ i ∈ recordChildIds r, i < s.nextId

/-- The scalar columns of a row (everything except the related forests). -/
def scalarRow (r : PRecord) :
    Nat × Bool × Option Nat × Nat × Option Nat × Nat :=
  (r.pk, r.publisher_is_draft, r.publisher_linked,
    r.publisher_modified_at, r.publisher_published_at, r.content)

/-- The `publisher_published_at` value a publish run assigns: stamped with
`timezone.now()` on a first publish (models.py lines 116-117), preserved on
a republish. -/
def pubAt (s : Store) (self : PRecord) : Option Nat :=
  match self.publisher_linked with
  | none => some s.clock
  | some _ => self.publisher_published_at

/-- The `publisher_modified_at` stamp the published copy receives at its
save (models.py line 127): the clock after the optional first-publish
`timezone.now()` call. -/
def pubStamp (s : Store) (self : PRecord) : Nat :=
  match self.publisher_linked with
  | none => s.clock + 1
  | some _ => s.clock

/-- Edit the stored draft's content field and save it (a user edit with no
publish), then call `revert_to_public` on it. -/
def revertAfterEdit (s : Store) (d : PRecord) (v : Nat) :
    Option (Store × Option PRecord) :=
  revert_to_public (saveRecord s { d with content := v } false) d.pk

/-! Concrete scenario rows and stores, used by the counterexample theorems
and the witnesses of the general theorems below. -/

/-- A grandchild row edited long after creation: `modified - created = 10`
seconds, over the 5-second threshold. -/
def c1grand : Child := .mk 10 0 10 0 [] []

/-- A direct one-to-many child created together with its parent (delta 0)
that owns the edited grandchild. -/
def c1child : Child := .mk 11 0 0 0 [c1grand] []

/-- A draft, linked and saved before its published counterpart's stamp, so
only the related-record checks can decide dirtiness. -/
def c1draft : PRecord :=
  { pk := 0
    publisher_is_draft := true
    publisher_linked := some 1
    publisher_modified_at := 3
    publisher_published_at := some 2
    content := 0
    fkChildren := [c1child]
    m2mChildren := []
    translations := [] }

def c1pub : PRecord :=
  { pk := 1
    publisher_is_draft := false
    publisher_linked := none
    publisher_modified_at := 5
    publisher_published_at := some 2
    content := 0
    fkChildren := []
    m2mChildren := []
    translations := [] }

def c1store : Store :=
  { recs := [c1draft, c1pub], nextId := 12, clock := 20, signals := [] }

/-- A many-to-many child with `modified - created = 3` seconds, at most the
threshold, with no further descendants. -/
def c7child : Child := .mk 10 0 3 0 [] []

def c7draft : PRecord :=
  { pk := 0
    publisher_is_draft := true
    publisher_linked := some 1
    publisher_modified_at := 3
    publisher_published_at := some 2
    content := 0
    fkChildren := []
    m2mChildren := [c7child]
    translations := [] }

def c7pub : PRecord :=
  { pk := 1
    publisher_is_draft := false
    publisher_linked := none
    publisher_modified_at := 5
    publisher_published_at := some 2
    content := 0
    fkChildren := []
    m2mChildren := []
    translations := [] }

def c7store : Store :=
  { recs := [c7draft, c7pub], nextId := 11, clock := 20, signals := [] }

/-- A draft that has already been published once (link set) and has been
edited since (its stamp 5 is newer than its counterpart's stamp 3), about
to be republished. -/
def rpDraft : PRecord :=
  { pk := 0
    publisher_is_draft := true
    publisher_linked := some 1
    publisher_modified_at := 5
    publisher_published_at := some 2
    content := 9
    fkChildren := []
    m2mChildren := []
    translations := [] }

/-- The existing published counterpart of `rpDraft`. -/
def rpPub : PRecord :=
  { pk := 1
    publisher_is_draft := false
    publisher_linked := none
    publisher_modified_at := 3
    publisher_published_at := some 2
    content := 7
    fkChildren := []
    m2mChildren := []
    translations := [] }

def republishStore : Store :=
  { recs := [rpDraft, rpPub], nextId := 2, clock := 10, signals := [] }

/-- A leaf one-to-many child edited 10 seconds after creation: it keeps its
owning draft permanently dirty. -/
def c4child : Child := .mk 5 0 10 0 [] []

/-- A never-published draft owning `c4child`. -/
def c4draft : PRecord :=
  { pk := 0
    publisher_is_draft := true
    publisher_linked := none
    publisher_modified_at := 3
    publisher_published_at := none
    content := 1
    fkChildren := [c4child]
    m2mChildren := []
    translations := [] }

def c4store : Store :=
  { recs := [c4draft], nextId := 6, clock := 20, signals := [] }

/-- A published (non-draft) record that carries a forward link — exactly
the shape of row a republish creates, compare the C3 theorem. -/
def c8rec : PRecord :=
  { pk := 0
    publisher_is_draft := false
    publisher_linked := some 1
    publisher_modified_at := 4
    publisher_published_at := some 2
    content := 6
    fkChildren := []
    m2mChildren := []
    translations := [] }

def c8target : PRecord :=
  { pk := 1
    publisher_is_draft := false
    publisher_linked := none
    publisher_modified_at := 3
    publisher_published_at := some 2
    content := 7
    fkChildren := []
    m2mChildren := []
    translations := [] }

def c8store : Store :=
  { recs := [c8rec, c8target], nextId := 2, clock := 10, signals := [] }

/-- A childless, never-published draft. -/
def w4draft : PRecord :=
  { pk := 0
    publisher_is_draft := true
    publisher_linked := none
    publisher_modified_at := 3
    publisher_published_at := none
    content := 1
    fkChildren := []
    m2mChildren := []
    translations := [] }

def w4store : Store :=
  { recs := [w4draft], nextId := 1, clock := 10, signals := [] }

/-! Row-table lemmas. -/

lemma lookupRec_pk {l : List PRecord} {pk : Nat} {r : PRecord}
    (h : lookupRec l pk = some r) : r.pk = pk := by
  induction l with
  | nil => simp [lookupRec] at h
  | cons q rest ih =>
    by_cases hq : q.pk = pk
    · simp [lookupRec, hq] at h
      exact h ▸ hq
    · simp [lookupRec, hq] at h
      exact ih h

lemma lookupRec_mem {l : List PRecord} {pk : Nat} {r : PRecord}
    (h : lookupRec l pk = some r) : r ∈ l := by
  induction l with
  | nil => simp [lookupRec] at h
  | cons q rest ih =>
    by_cases hq : q.pk = pk
    · simp [lookupRec, hq] at h
      simp [h]
    · simp [lookupRec, hq] at h
      exact List.mem_cons_of_mem _ (ih h)

lemma lookupRec_append_some {l l₂ : List PRecord} {pk : Nat} {r : PRecord}
    (h : lookupRec l pk = some r) :
    lookupRec (l ++ l₂) pk = some r := by
  induction l with
  | nil => simp [lookupRec] at h
  | cons q rest ih =>
    by_cases hq : q.pk = pk
    · simp [lookupRec, hq] at h ⊢
      exact h
    · simp [lookupRec, hq] at h ⊢
      exact ih h

lemma lookupRec_append_none {l l₂ : List PRecord} {pk : Nat}
    (h : lookupRec l pk = none) :
    lookupRec (l ++ l₂) pk = lookupRec l₂ pk := by
  induction l with
  | nil => simp [lookupRec]
  | cons q rest ih =>
    by_cases hq : q.pk = pk
    · simp [lookupRec, hq] at h
    · simp [lookupRec, hq] at h ⊢
      exact ih h

lemma lookupRec_none_of_bound {l : List PRecord} {n : Nat}
    (h : ∀ r ∈ l, r.pk < n) : lookupRec l n = none := by
  induction l with
  | nil => simp [lookupRec]
  | cons q rest ih =>
    have hq : q.pk < n := h q (by simp)
    have hqn : ¬ q.pk = n := by omega
    simp [lookupRec, hqn]
    exact ih fun r hr => h r (List.mem_cons_of_mem _ hr)

lemma lookupRec_setRowList_self {l : List PRecord} {r : PRecord} :
    lookupRec (setRowList l r) r.pk = some r := by
  induction l with
  | nil => simp [setRowList, lookupRec]
  | cons q rest ih =>
    by_cases hq : q.pk = r.pk
    · simp [setRowList, hq, lookupRec]
    · simp [setRowList, hq, lookupRec, ih]

lemma lookupRec_setRowList_ne {l : List PRecord} {r : PRecord} {pk : Nat}
    (h : pk ≠ r.pk) :
    lookupRec (setRowList l r) pk = lookupRec l pk := by
  have h' : ¬ r.pk = pk := fun hh => h hh.symm
  induction l with
  | nil => simp [setRowList, lookupRec, h']
  | cons q rest ih =>
    by_cases hq : q.pk = r.pk
    · have : ¬ r.pk = pk := fun hh => h hh.symm
      simp [setRowList, hq, lookupRec, this]
    · simp [setRowList, hq, lookupRec, ih]

lemma lookupRec_deleteRowList_self {l : List PRecord} {pk : Nat} :
    lookupRec (deleteRowList l pk) pk = none := by
  induction l with
  | nil => simp [deleteRowList, lookupRec]
  | cons q rest ih =>
    by_cases hq : q.pk = pk
    · simp [deleteRowList, hq, ih]
    · simp [deleteRowList, hq, lookupRec, ih]

lemma lookupRec_deleteRowList_ne {l : List PRecord} {pk pk' : Nat}
    (h : pk' ≠ pk) :
    lookupRec (deleteRowList l pk) pk' = lookupRec l pk' := by
  have h' : ¬ pk = pk' := fun hh => h hh.symm
  induction l with
  | nil => simp [deleteRowList]
  | cons q rest ih =>
    by_cases hq : q.pk = pk
    · have : ¬ q.pk = pk' := by omega
      simp [deleteRowList, hq, lookupRec, this, h', ih]
    · simp [deleteRowList, hq, lookupRec, ih]

lemma setRowList_bound {l : List PRecord} {r : PRecord} {n : Nat}
    (hl : ∀ q ∈ l, q.pk < n) (hr : r.pk < n) :
    ∀ q ∈ setRowList l r, q.pk < n := by
  induction l with
  | nil =>
    intro q hq
    simp [setRowList] at hq
    simp [hq, hr]
  | cons p rest ih =>
    intro q hq
    by_cases hp : p.pk = r.pk
    · simp [setRowList, hp] at hq
      rcases hq with hq | hq
      · simp [hq, hr]
      · exact hl q (List.mem_cons_of_mem _ hq)
    · simp [setRowList, hp] at hq
      rcases hq with hq | hq
      · exact hl q (by simp [hq])
      · exact ih (fun a ha => hl a (List.mem_cons_of_mem _ ha)) q hq

lemma lookupRec_append_single_ne {l : List PRecord} {r : PRecord} {p : Nat}
    (h : r.pk ≠ p) : lookupRec (l ++ [r]) p = lookupRec l p := by
  cases hl : lookupRec l p with
  | some q => exact lookupRec_append_some hl
  | none =>
    rw [lookupRec_append_none hl]
    simp [lookupRec, h, hl]

lemma saveRecord_recs_false (s : Store) (r : PRecord) :
    (saveRecord s r false).recs =
      setRowList s.recs { r with publisher_modified_at := s.clock } := rfl

lemma saveRecord_recs_true (s : Store) (r : PRecord) :
    (saveRecord s r true).recs = setRowList s.recs r := rfl

lemma saveRecord_nextId (s : Store) (r : PRecord) (b : Bool) :
    (saveRecord s r b).nextId = s.nextId := by
  cases b <;> rfl

lemma saveRecord_signals (s : Store) (r : PRecord) (b : Bool) :
    (saveRecord s r b).signals = s.signals := by
  cases b <;> rfl

lemma saveRecord_get_false_self (s : Store) (r : PRecord) :
    (saveRecord s r false).get r.pk =
      some { r with publisher_modified_at := s.clock } := by
  simp [saveRecord, Store.get, Store.setRow, Store.tick]
  exact lookupRec_setRowList_self

lemma saveRecord_get_true_self (s : Store) (r : PRecord) :
    (saveRecord s r true).get r.pk = some r := by
  simp [saveRecord, Store.get, Store.setRow]
  exact lookupRec_setRowList_self

lemma saveRecord_get_ne (s : Store) (r : PRecord) (b : Bool) {pk : Nat}
    (h : pk ≠ r.pk) :
    (saveRecord s r b).get pk = s.get pk := by
  cases b <;>
    · simp [saveRecord, Store.get, Store.setRow, Store.tick]
      exact lookupRec_setRowList_ne h

lemma deleteRowList_subset {l : List PRecord} {pk : Nat} :
    ∀ q ∈ deleteRowList l pk, q ∈ l := by
  induction l with
  | nil => simp [deleteRowList]
  | cons p rest ih =>
    intro q hq
    by_cases hp : p.pk = pk
    · simp [deleteRowList, hp] at hq
      exact List.mem_cons_of_mem _ (ih q hq)
    · simp [deleteRowList, hp] at hq
      rcases hq with hq | hq
      · simp [hq]
      · exact List.mem_cons_of_mem _ (ih q hq)

/-! Dirtiness-check lemmas. -/

/-- Whenever the first many-to-many item is at or below the threshold, the
source recursion of models.py line 101 repeats the identical call and
`check_reverse_m2m_dirty` diverges: no amount of fuel produces a value. -/
lemma check_reverse_m2m_dirty_diverges (self : PRecord) {c : Child}
    {rest : List Child} (hm : self.m2mChildren = c :: rest)
    (hd : ¬ tdelta c > 5) :
    ∀ fuel, check_reverse_m2m_dirty self fuel = none := by
  intro fuel
  induction fuel with
  | zero => simp [check_reverse_m2m_dirty]
  | succ f ih =>
    rw [check_reverse_m2m_dirty, hm]
    simp [m2mGo, hd, ih]

/-- On every sufficient fuel, the faithful fuelled `check_reverse_m2m_dirty`
computes exactly `m2mResult` (the closed form used inside `is_dirty`). -/
lemma check_reverse_m2m_dirty_eq (self : PRecord) {fuel : Nat}
    (h : 1 ≤ fuel) :
    check_reverse_m2m_dirty self fuel = m2mResult self := by
  cases fuel with
  | zero => omega
  | succ f =>
    rw [check_reverse_m2m_dirty]
    cases hm : self.m2mChildren with
    | nil => simp [m2mGo, m2mResult, hm]
    | cons c rest =>
      by_cases hd : tdelta c > 5
      · simp [m2mGo, m2mResult, hm, hd]
      · have hdiv := check_reverse_m2m_dirty_diverges self hm hd f
        simp [m2mGo, m2mResult, hm, hd, hdiv]

/-! Graph-cloner lemmas: the fresh-identity counter only grows, and every
identity in a cloned forest is at least the starting counter. -/

mutual

lemma cloneChild_counter : ∀ (c : Child) (f : Nat), f + 1 ≤ (cloneChild c f).2
  | .mk i cr mo co fk m2m, f => by
    have h1 := cloneForest_counter fk (f + 1)
    have h2 := cloneForest_counter m2m (cloneForest fk (f + 1)).2
    simp only [cloneChild]
    omega

lemma cloneForest_counter : ∀ (cs : List Child) (f : Nat),
    f ≤ (cloneForest cs f).2
  | [], f => by simp [cloneForest]
  | c :: rest, f => by
    have h1 := cloneChild_counter c f
    have h2 := cloneForest_counter rest (cloneChild c f).2
    simp only [cloneForest]
    omega

end

mutual

lemma cloneChild_ids_ge : ∀ (c : Child) (f : Nat),
    ∀ i ∈ childIds (cloneChild c f).1, f ≤ i
  | .mk j cr mo co fk m2m, f => by
    intro i hi
    have hc1 := cloneForest_counter fk (f + 1)
    simp only [cloneChild, childIds, List.mem_cons, List.mem_append] at hi
    rcases hi with hi | hi | hi
    · omega
    · have := cloneForest_ids_ge fk (f + 1) i hi
      omega
    · have := cloneForest_ids_ge m2m (cloneForest fk (f + 1)).2 i hi
      omega

lemma cloneForest_ids_ge : ∀ (cs : List Child) (f : Nat),
    ∀ i ∈ childIdsList (cloneForest cs f).1, f ≤ i
  | [], f => by simp [cloneForest, childIdsList]
  | c :: rest, f => by
    intro i hi
    have hc1 := cloneChild_counter c f
    simp only [cloneForest, childIdsList, List.mem_append] at hi
    rcases hi with hi | hi
    · exact cloneChild_ids_ge c f i hi
    · have := cloneForest_ids_ge rest (cloneChild c f).2 i hi
      omega

end

/-! Child-edit lemmas: editing a child identity that a record does not own
leaves the record untouched. -/

mutual

lemma setChildContent_no_op : ∀ (c : Child) (cid v : Nat),
    cid ∉ childIds c → setChildContent c cid v = c
  | .mk i cr mo co fk m2m, cid, v => by
    intro h
    simp only [childIds, List.mem_cons, List.mem_append] at h
    push_neg at h
    obtain ⟨h1, h2, h3⟩ := h
    have hne : ¬ i = cid := fun hh => h1 hh.symm
    simp only [setChildContent, hne, if_false]
    rw [setForestContent_no_op fk cid v h2, setForestContent_no_op m2m cid v h3]

lemma setForestContent_no_op : ∀ (cs : List Child) (cid v : Nat),
    cid ∉ childIdsList cs → setForestContent cs cid v = cs
  | [], _, _ => by intro _; simp [setForestContent]
  | c :: rest, cid, v => by
    intro h
    simp only [childIdsList, List.mem_append] at h
    push_neg at h
    simp only [setForestContent]
    rw [setChildContent_no_op c cid v h.1, setForestContent_no_op rest cid v h.2]

end

lemma lookupRec_map_pk {l : List PRecord} {pk : Nat}
    {f : PRecord → PRecord} (hf : ∀ r, (f r).pk = r.pk) :
    lookupRec (l.map f) pk = (lookupRec l pk).map f := by
  induction l with
  | nil => simp [lookupRec]
  | cons q rest ih =>
    by_cases hq : q.pk = pk
    · simp [lookupRec, hq, hf]
    · simp [lookupRec, hq, hf, ih]

/-- Editing a child row by an identity a record does not own leaves that
record's stored row untouched. -/
lemma updateChildRow_get_miss {s : Store} {pk cid v : Nat} {r : PRecord}
    (h : s.get pk = some r) (hmiss : cid ∉ recordChildIds r) :
    (updateChildRow s cid v).get pk = some r := by
  simp only [recordChildIds, List.mem_append] at hmiss
  push_neg at hmiss
  simp only [updateChildRow, Store.get] at *
  rw [@lookupRec_map_pk s.recs pk (fun q =>
    { q with
      fkChildren := setForestContent q.fkChildren cid v
      m2mChildren := setForestContent q.m2mChildren cid v }) (fun q => rfl), h]
  simp only [Option.map_some']
  rw [setForestContent_no_op _ _ _ hmiss.1, setForestContent_no_op _ _ _ hmiss.2]

lemma cloneTransList_counter (ts : List (Nat × Nat)) (f : Nat) :
    (cloneTransList ts f).2 = f + ts.length := by
  induction ts generalizing f with
  | nil => simp [cloneTransList]
  | cons t rest ih =>
    simp [cloneTransList, ih]
    omega

/-- The cloners write only the destination row: every other row of the
store — in particular the source row, and with it every related row it
owns — is left exactly as it was. -/
lemma clone_relations_get_ne (s : Store) (a b : Nat) {p : Nat}
    (h : p ≠ b) : (clone_relations s a b).get p = s.get p := by
  unfold clone_relations
  cases h1 : s.get a with
  | none => rfl
  | some src =>
    cases h2 : s.get b with
    | none => rfl
    | some dst =>
      have hpk : dst.pk = b := lookupRec_pk h2
      simp only [Store.get, Store.setRow]
      exact lookupRec_setRowList_ne (by simp [hpk]; exact h)

lemma clone_translations_get_ne (s : Store) (a b : Nat) {p : Nat}
    (h : p ≠ b) : (clone_translations s a b).get p = s.get p := by
  unfold clone_translations
  cases h1 : s.get a with
  | none => rfl
  | some src =>
    cases h2 : s.get b with
    | none => rfl
    | some dst =>
      have hpk : dst.pk = b := lookupRec_pk h2
      simp only [Store.get, Store.setRow]
      exact lookupRec_setRowList_ne (by simp [hpk]; exact h)

lemma clone_translations_spec (s : Store) (a b : Nat) {src dst : PRecord}
    (ha : s.get a = some src) (hb : s.get b = some dst) :
    (clone_translations s a b).get b =
        some { dst with
          translations :=
            dst.translations ++ (cloneTransList src.translations s.nextId).1 } ∧
      (clone_translations s a b).nextId =
          (cloneTransList src.translations s.nextId).2 ∧
        (clone_translations s a b).clock = s.clock ∧
          (clone_translations s a b).signals = s.signals := by
  have hpk : dst.pk = b := lookupRec_pk hb
  unfold clone_translations
  rw [ha, hb]
  refine ⟨?_, rfl, rfl, rfl⟩
  simp only [Store.get, Store.setRow]
  have := @lookupRec_setRowList_self s.recs
    { dst with
      translations :=
        dst.translations ++ (cloneTransList src.translations s.nextId).1 }
  simpa [hpk] using this

lemma clone_relations_spec (s : Store) (a b : Nat) {src dst : PRecord}
    (ha : s.get a = some src) (hb : s.get b = some dst) :
    (clone_relations s a b).get b =
        some { dst with
          fkChildren :=
            dst.fkChildren ++ (cloneForest src.fkChildren s.nextId).1
          m2mChildren :=
            dst.m2mChildren ++
              (cloneForest src.m2mChildren
                (cloneForest src.fkChildren s.nextId).2).1 } ∧
      (clone_relations s a b).clock = s.clock ∧
        (clone_relations s a b).signals = s.signals := by
  have hpk : dst.pk = b := lookupRec_pk hb
  unfold clone_relations
  rw [ha, hb]
  refine ⟨?_, rfl, rfl⟩
  simp only [Store.get, Store.setRow]
  have := @lookupRec_setRowList_self s.recs
    { dst with
      fkChildren := dst.fkChildren ++ (cloneForest src.fkChildren s.nextId).1
      m2mChildren :=
        dst.m2mChildren ++
          (cloneForest src.m2mChildren
            (cloneForest src.fkChildren s.nextId).2).1 }
  simpa [hpk] using this

lemma Store.get_emit (s : Store) (g : Signal) (pk : Nat) :
    (s.emit g).get pk = s.get pk := rfl

lemma Store.emit_signals (s : Store) (g : Signal) :
    (s.emit g).signals = s.signals ++ [g] := rfl

/-- Effect of the clone-and-relink tail of a publish run (models.py lines
127-142, after the published copy has been inserted): the pipeline
`clone_translations; clone_relations; emit pre-save-draft; save the linked
draft suppressed; emit post-publish` applied to a base store `T` holding
the draft `self` at `pk` and the freshly inserted bare copy `P` at `n`. -/
lemma publishTail_spec (T : Store) (pk n : Nat) (self P D2 : PRecord)
    (hTpk : T.get pk = some self) (hTn : T.get n = some P)
    (hPfk : P.fkChildren = []) (hPm2m : P.m2mChildren = [])
    (hD2 : D2.pk = pk) (hne : pk ≠ n) (hn : n ≤ T.nextId) :
    ((saveRecord ((clone_relations (clone_translations T pk n) pk
          n).emit .preSaveDraft) D2 true).emit .postPublish).get pk =
        some D2 ∧
      (((saveRecord ((clone_relations (clone_translations T pk n) pk
            n).emit .preSaveDraft) D2 true).emit .postPublish).get n).map
          scalarRow =
        some (scalarRow P) ∧
      (∀ q, ((saveRecord ((clone_relations (clone_translations T pk n) pk
            n).emit .preSaveDraft) D2 true).emit .postPublish).get n =
            some q →
        ∀ i ∈ recordChildIds q, n ≤ i) ∧
      (∀ p', p' ≠ pk → p' ≠ n →
        ((saveRecord ((clone_relations (clone_translations T pk n) pk
            n).emit .preSaveDraft) D2 true).emit .postPublish).get p' =
          T.get p') ∧
      ((saveRecord ((clone_relations (clone_translations T pk n) pk
          n).emit .preSaveDraft) D2 true).emit .postPublish).signals =
        T.signals ++ [Signal.preSaveDraft, Signal.postPublish] := by
  obtain ⟨hct_n, hct_next, hct_clock, hct_sig⟩ :=
    clone_translations_spec T pk n hTpk hTn
  have hct_pk : (clone_translations T pk n).get pk = T.get pk :=
    clone_translations_get_ne T pk n hne
  obtain ⟨hcr_n, hcr_clock, hcr_sig⟩ :=
    clone_relations_spec (clone_translations T pk n) pk n
      (by rw [hct_pk]; exact hTpk) hct_n
  have hcr_pk :
      (clone_relations (clone_translations T pk n) pk n).get pk =
        T.get pk := by
    rw [clone_relations_get_ne _ pk n hne, hct_pk]
  have hnp : n ≠ pk := fun hh => hne hh.symm
  have hnD2 : n ≠ D2.pk := by rw [hD2]; exact hnp
  refine ⟨?_, ?_, ?_, ?_, ?_⟩
  · rw [Store.get_emit]
    have := saveRecord_get_true_self
      ((clone_relations (clone_translations T pk n) pk n).emit
        .preSaveDraft) D2
    rw [hD2] at this
    exact this
  · rw [Store.get_emit, saveRecord_get_ne _ _ _ hnD2, Store.get_emit, hcr_n]
    simp [scalarRow]
  · intro q hq i hi
    rw [Store.get_emit, saveRecord_get_ne _ _ _ hnD2, Store.get_emit,
      hcr_n] at hq
    obtain rfl : q = _ := (Option.some.injEq _ _).mp hq.symm
    have hnext : T.nextId ≤ (clone_translations T pk n).nextId := by
      rw [hct_next, cloneTransList_counter]
      omega
    simp only [recordChildIds, hPfk, hPm2m, List.nil_append,
      List.mem_append] at hi
    rcases hi with hi | hi
    · have := cloneForest_ids_ge self.fkChildren
        (clone_translations T pk n).nextId i hi
      omega
    · have hcf := cloneForest_counter self.fkChildren
        (clone_translations T pk n).nextId
      have := cloneForest_ids_ge self.m2mChildren
        (cloneForest self.fkChildren
          (clone_translations T pk n).nextId).2 i hi
      omega
  · intro p' hp1 hp2
    have hp1' : p' ≠ D2.pk := by rw [hD2]; exact hp1
    rw [Store.get_emit, saveRecord_get_ne _ _ _ hp1', Store.get_emit,
      clone_relations_get_ne _ pk n hp2, clone_translations_get_ne _ pk n hp2]
  · rw [Store.emit_signals, saveRecord_signals, Store.emit_signals,
      hcr_sig, hct_sig]
    simp

/-- Observable effect of `publishBody` on a store holding the draft: the
draft row gets its `publisher_published_at` (on a first publish) and its
link to the fresh identity `s.nextId`; the row at `s.nextId` is the
published copy — not a draft, carrying the draft's old link value, stamped
at its own save, with the draft's `publisher_published_at` and content, and
owning only freshly created related rows; every other row is untouched; the
pre-save-draft and post-publish signals are appended in order. -/
lemma publishBody_spec (s : Store) (pk : Nat) (self : PRecord)
    (hget : s.get pk = some self)
    (hfresh : s.get s.nextId = none)
    (hne : pk ≠ s.nextId) :
    (publishBody s pk self).get pk =
        some { self with
          publisher_published_at := pubAt s self
          publisher_linked := some s.nextId } ∧
      ((publishBody s pk self).get s.nextId).map scalarRow =
        some (s.nextId, false, self.publisher_linked, pubStamp s self,
          pubAt s self, self.content) ∧
      (∀ q, (publishBody s pk self).get s.nextId = some q →
        ∀ i ∈ recordChildIds q, s.nextId ≤ i) ∧
      (∀ p', p' ≠ pk → p' ≠ s.nextId →
        (publishBody s pk self).get p' = s.get p') ∧
      (publishBody s pk self).signals =
        s.signals ++ [Signal.preSaveDraft, Signal.postPublish] := by
  have hpk : self.pk = pk := lookupRec_pk hget
  cases hL : self.publisher_linked with
  | none =>
    have hbody : publishBody s pk self =
        (saveRecord ((clone_relations (clone_translations
          { recs := s.recs ++
              [{ pk := s.nextId, publisher_is_draft := false,
                 publisher_linked := none,
                 publisher_modified_at := s.clock + 1,
                 publisher_published_at := some s.clock,
                 content := self.content, fkChildren := [],
                 m2mChildren := [], translations := [] }],
            nextId := s.nextId + 1, clock := s.clock + 2,
            signals := s.signals } pk s.nextId) pk s.nextId).emit
          .preSaveDraft)
          { self with
            publisher_published_at := some s.clock
            publisher_linked := some s.nextId } true).emit .postPublish := by
      simp only [publishBody, hL]
      rfl
    have hTpk : Store.get
        { recs := s.recs ++
            [{ pk := s.nextId, publisher_is_draft := false,
               publisher_linked := none,
               publisher_modified_at := s.clock + 1,
               publisher_published_at := some s.clock,
               content := self.content, fkChildren := [],
               m2mChildren := [], translations := [] }],
          nextId := s.nextId + 1, clock := s.clock + 2,
          signals := s.signals } pk = some self := by
      show lookupRec (s.recs ++ _) pk = some self
      exact lookupRec_append_some hget
    have hTn : Store.get
        { recs := s.recs ++
            [{ pk := s.nextId, publisher_is_draft := false,
               publisher_linked := none,
               publisher_modified_at := s.clock + 1,
               publisher_published_at := some s.clock,
               content := self.content, fkChildren := [],
               m2mChildren := [], translations := [] }],
          nextId := s.nextId + 1, clock := s.clock + 2,
          signals := s.signals } s.nextId =
        some { pk := s.nextId, publisher_is_draft := false,
               publisher_linked := none,
               publisher_modified_at := s.clock + 1,
               publisher_published_at := some s.clock,
               content := self.content, fkChildren := [],
               m2mChildren := [], translations := [] } := by
      show lookupRec (s.recs ++ _) s.nextId = _
      rw [lookupRec_append_none hfresh]
      simp [lookupRec]
    obtain ⟨t1, t2, t3, t4, t5⟩ :=
      publishTail_spec _ pk s.nextId self _
        { self with
          publisher_published_at := some s.clock
          publisher_linked := some s.nextId }
        hTpk hTn rfl rfl hpk hne (by simp)
    rw [hbody]
    refine ⟨?_, ?_, ?_, ?_, ?_⟩
    · simp only [pubAt, hL]
      exact t1
    · rw [t2]
      simp [scalarRow, pubAt, pubStamp, hL]
    · exact t3
    · intro p' hp1 hp2
      rw [t4 p' hp1 hp2]
      show lookupRec (s.recs ++ _) p' = _
      exact lookupRec_append_single_ne (fun hh => hp2 hh.symm)
    · exact t5
  | some lpk =>
    have hbody : publishBody s pk self =
        (saveRecord ((clone_relations (clone_translations
          { recs := s.recs ++
              [{ pk := s.nextId, publisher_is_draft := false,
                 publisher_linked := some lpk,
                 publisher_modified_at := s.clock,
                 publisher_published_at := self.publisher_published_at,
                 content := self.content, fkChildren := [],
                 m2mChildren := [], translations := [] }],
            nextId := s.nextId + 1, clock := s.clock + 1,
            signals := s.signals } pk s.nextId) pk s.nextId).emit
          .preSaveDraft)
          { self with
            publisher_linked := some s.nextId } true).emit .postPublish := by
      simp only [publishBody, hL]
      rfl
    have hTpk : Store.get
        { recs := s.recs ++
            [{ pk := s.nextId, publisher_is_draft := false,
               publisher_linked := some lpk,
               publisher_modified_at := s.clock,
               publisher_published_at := self.publisher_published_at,
               content := self.content, fkChildren := [],
               m2mChildren := [], translations := [] }],
          nextId := s.nextId + 1, clock := s.clock + 1,
          signals := s.signals } pk = some self := by
      show lookupRec (s.recs ++ _) pk = some self
      exact lookupRec_append_some hget
    have hTn : Store.get
        { recs := s.recs ++
            [{ pk := s.nextId, publisher_is_draft := false,
               publisher_linked := some lpk,
               publisher_modified_at := s.clock,
               publisher_published_at := self.publisher_published_at,
               content := self.content, fkChildren := [],
               m2mChildren := [], translations := [] }],
          nextId := s.nextId + 1, clock := s.clock + 1,
          signals := s.signals } s.nextId =
        some { pk := s.nextId, publisher_is_draft := false,
               publisher_linked := some lpk,
               publisher_modified_at := s.clock,
               publisher_published_at := self.publisher_published_at,
               content := self.content, fkChildren := [],
               m2mChildren := [], translations := [] } := by
      show lookupRec (s.recs ++ _) s.nextId = _
      rw [lookupRec_append_none hfresh]
      simp [lookupRec]
    obtain ⟨t1, t2, t3, t4, t5⟩ :=
      publishTail_spec _ pk s.nextId self _
        { self with publisher_linked := some s.nextId }
        hTpk hTn rfl rfl hpk hne (by simp)
    rw [hbody]
    refine ⟨?_, ?_, ?_, ?_, ?_⟩
    · simp only [pubAt, hL]
      exact t1
    · rw [t2]
      simp [scalarRow, pubAt, pubStamp, hL]
    · exact t3
    · intro p' hp1 hp2
      rw [t4 p' hp1 hp2]
      show lookupRec (s.recs ++ _) p' = _
      exact lookupRec_append_single_ne (fun hh => hp2 hh.symm)
    · exact t5

/-! State-machine lemmas at the level of `publish`, `unpublish` and
`revert_to_public`. -/

lemma pubStamp_ge (s : Store) (self : PRecord) : s.clock ≤ pubStamp s self := by
  cases h : self.publisher_linked <;> simp [pubStamp, h]

lemma is_dirty_unlinked (s : Store) {r : PRecord}
    (hd : r.publisher_is_draft = true) (hl : r.publisher_linked = none) :
    is_dirty s r = some true := by
  simp [is_dirty, hd, hl]

lemma is_dirty_clean (s : Store) {r p : PRecord} {lpk : Nat}
    (hd : r.publisher_is_draft = true) (hl : r.publisher_linked = some lpk)
    (hp : s.get lpk = some p)
    (hmod : ¬ p.publisher_modified_at < r.publisher_modified_at)
    (hfk : r.fkChildren = []) (hm2m : r.m2mChildren = []) :
    is_dirty s r = some false := by
  simp [is_dirty, hd, hl, hp, hmod, check_reverse_foreign_keys_dirty, hfk,
    fkGo, m2mResult, hm2m]

lemma publish_eq_body {s : Store} {pk : Nat} {self : PRecord}
    (hget : s.get pk = some self)
    (hdraft : self.publisher_is_draft = true)
    (hdirty : is_dirty s self = some true) :
    publish s pk = some (publishBody s pk self) := by
  simp [publish, hget, hdraft, hdirty]

lemma publish_nondraft {s : Store} {pk : Nat} {r : PRecord}
    (hget : s.get pk = some r) (h : r.publisher_is_draft = false) :
    publish s pk = some s := by
  simp [publish, hget, h]

lemma publish_clean {s : Store} {pk : Nat} {r : PRecord}
    (hget : s.get pk = some r) (h : is_dirty s r = some false) :
    publish s pk = some s := by
  cases hd : r.publisher_is_draft <;> simp [publish, hget, hd, h]

lemma unpublish_nondraft {s : Store} {pk : Nat} {r : PRecord}
    (hget : s.get pk = some r) (h : r.publisher_is_draft = false) :
    unpublish s pk = s := by
  simp [unpublish, hget, h]

lemma unpublish_unlinked {s : Store} {pk : Nat} {r : PRecord}
    (hget : s.get pk = some r) (hl : r.publisher_linked = none) :
    unpublish s pk = s := by
  cases hd : r.publisher_is_draft <;> simp [unpublish, hget, hd, hl]

lemma revert_unlinked {s : Store} {pk : Nat} {r : PRecord}
    (hget : s.get pk = some r) (hl : r.publisher_linked = none) :
    revert_to_public s pk = some (s, none) := by
  simp [revert_to_public, hget, hl]

/-- The main branch of `unpublish` (models.py lines 149-154), reduced. -/
lemma unpublish_eq_main {s : Store} {pk lpk : Nat} {self : PRecord}
    (hg : s.get pk = some self) (hd : self.publisher_is_draft = true)
    (hl : self.publisher_linked = some lpk) :
    unpublish s pk =
      (saveRecord ((s.emit .preUnpublish).deleteRow lpk)
        { self with
          publisher_linked := none
          publisher_published_at := none } false).emit .postUnpublish := by
  simp [unpublish, hg, hd, hl]

lemma revert_missing {s : Store} {pk : Nat}
    (hg : s.get pk = none) : revert_to_public s pk = some (s, none) := by
  simp [revert_to_public, hg]

lemma revert_dangling {s : Store} {pk lpk : Nat} {r : PRecord}
    (hg : s.get pk = some r) (hl : r.publisher_linked = some lpk)
    (hp : s.get lpk = none) : revert_to_public s pk = none := by
  simp [revert_to_public, hg, hl, hp]

lemma clone_relations_signals (s : Store) (a b : Nat) :
    (clone_relations s a b).signals = s.signals := by
  unfold clone_relations
  cases s.get a <;> cases s.get b <;> rfl

lemma clone_translations_signals (s : Store) (a b : Nat) :
    (clone_translations s a b).signals = s.signals := by
  unfold clone_translations
  cases s.get a <;> cases s.get b <;> rfl

lemma publishBody_signals (s : Store) (pk : Nat) (self : PRecord) :
    (publishBody s pk self).signals =
      s.signals ++ [Signal.preSaveDraft, Signal.postPublish] := by
  cases hL : self.publisher_linked <;>
    · simp only [publishBody, hL]
      rw [Store.emit_signals, saveRecord_signals, Store.emit_signals,
        clone_relations_signals, clone_translations_signals]
      simp [Store.insertRow, Store.tick]

lemma publish_signals_cases {s : Store} {pk : Nat} {s' : Store}
    (h : publish s pk = some s') :
    s'.signals = s.signals ∨
      s'.signals = s.signals ++ [Signal.preSaveDraft, Signal.postPublish] := by
  unfold publish at h
  cases hg : s.get pk with
  | none =>
    rw [hg] at h
    cases h
    exact Or.inl rfl
  | some self =>
    rw [hg] at h
    cases hd : self.publisher_is_draft with
    | false =>
      simp [hd] at h
      cases h
      exact Or.inl rfl
    | true =>
      simp only [hd, Bool.not_true, Bool.false_eq_true, if_false] at h
      cases hi : is_dirty s self with
      | none => rw [hi] at h; cases h
      | some b =>
        rw [hi] at h
        cases b with
        | false =>
          cases h
          exact Or.inl rfl
        | true =>
          cases h
          exact Or.inr (publishBody_signals s pk self)

lemma saveRecord_clock_ge (s : Store) (r : PRecord) (b : Bool) :
    s.clock ≤ (saveRecord s r b).clock := by
  cases b <;> simp [saveRecord, Store.setRow, Store.tick]

lemma Store.deleteRow_signals (s : Store) (pk : Nat) :
    (s.deleteRow pk).signals = s.signals := rfl

lemma Store.deleteRow_nextId (s : Store) (pk : Nat) :
    (s.deleteRow pk).nextId = s.nextId := rfl

/-- The main branch of `revert_to_public` (models.py lines 167-183),
reduced: detach and save the draft, delete its row, promote and save the
published record, then publish it and return it. -/
lemma revert_eq_main {s : Store} {pk lpk : Nat} {self pub : PRecord}
    (hg : s.get pk = some self) (hl : self.publisher_linked = some lpk)
    (hp : s.get lpk = some pub) :
    revert_to_public s pk =
      match publish (saveRecord ((saveRecord s
          { self with publisher_linked := none } false).deleteRow pk)
        { pub with publisher_is_draft := true } false) lpk with
      | none => none
      | some s₄ => some (s₄, s₄.get lpk) := by
  simp only [revert_to_public, hg, hl, hp]

lemma match_publish_cases {T : Store} {lpk : Nat}
    {out : Store × Option PRecord}
    (h : (match publish T lpk with
      | none => none
      | some s₄ => some (s₄, s₄.get lpk)) = some out) :
    ∃ s₄, publish T lpk = some s₄ ∧ out = (s₄, s₄.get lpk) := by
  cases hpub : publish T lpk with
  | none => rw [hpub] at h; cases h
  | some s₄ =>
    rw [hpub] at h
    cases h
    exact ⟨s₄, rfl, rfl⟩

lemma revert_signals_cases {s : Store} {pk : Nat}
    {out : Store × Option PRecord}
    (h : revert_to_public s pk = some out) :
    out.1.signals = s.signals ∨
      out.1.signals =
        s.signals ++ [Signal.preSaveDraft, Signal.postPublish] := by
  cases hg : s.get pk with
  | none =>
    rw [revert_missing hg] at h
    cases h
    exact Or.inl rfl
  | some self =>
    cases hl : self.publisher_linked with
    | none =>
      rw [revert_unlinked hg hl] at h
      cases h
      exact Or.inl rfl
    | some lpk =>
      cases hp : s.get lpk with
      | none =>
        rw [revert_dangling hg hl hp] at h
        cases h
      | some pub =>
        rw [revert_eq_main hg hl hp] at h
        obtain ⟨s₄, hpub, rfl⟩ := match_publish_cases h
        have hsig := publish_signals_cases hpub
        rw [saveRecord_signals, Store.deleteRow_signals, saveRecord_signals]
          at hsig
        exact hsig

/-- Publishing a promoted record (a draft with no link): it always fires
(`is_dirty` is trivially true), stamps `publisher_published_at` with the
clock, links the record to the fresh identity, and creates the published
copy there. -/
lemma promoted_publish_spec (T : Store) (ppk : Nat) (pr : PRecord)
    (hbT : ∀ r ∈ T.recs, r.pk < T.nextId)
    (hTp : T.get ppk = some pr)
    (hprd : pr.publisher_is_draft = true)
    (hprl : pr.publisher_linked = none) :
    publish T ppk = some (publishBody T ppk pr) ∧
      ((publishBody T ppk pr).get ppk).map (fun r =>
        (r.pk, r.publisher_is_draft, r.content, r.publisher_linked,
          r.publisher_published_at)) =
        some (pr.pk, true, pr.content, some T.nextId, some T.clock) ∧
      (((publishBody T ppk pr).get T.nextId).map fun q =>
        (q.publisher_is_draft, q.content)) = some (false, pr.content) ∧
      (∀ p', p' ≠ ppk → p' ≠ T.nextId →
        (publishBody T ppk pr).get p' = T.get p') ∧
      (publishBody T ppk pr).signals =
        T.signals ++ [Signal.preSaveDraft, Signal.postPublish] := by
  have hppk_lt : ppk < T.nextId := by
    have h1 := hbT pr (lookupRec_mem hTp)
    have h2 : pr.pk = ppk := lookupRec_pk hTp
    omega
  have hfresh : T.get T.nextId = none :=
    lookupRec_none_of_bound hbT
  have hne : ppk ≠ T.nextId := by omega
  obtain ⟨b1, b2, b3, b4, b5⟩ := publishBody_spec T ppk pr hTp hfresh hne
  refine ⟨publish_eq_body hTp hprd (is_dirty_unlinked T hprd hprl),
    ?_, ?_, b4, b5⟩
  · rw [b1]
    simp [pubAt, hprl, hprd]
  · cases hq : (publishBody T ppk pr).get T.nextId with
    | none => rw [hq] at b2; simp at b2
    | some q =>
      rw [hq] at b2
      simp only [Option.map_some', scalarRow, Option.some.injEq,
        Prod.mk.injEq] at b2
      obtain ⟨-, e2, -, -, -, e6⟩ := b2
      simp [e2, e6]

/-- Effect of a successful `revert_to_public` on a well-formed pair: the
draft row at `dpk` disappears; the operation returns the promoted published
record — it keeps the published record's identity `ppk` and content, is now
a draft, and is linked to a fresh published copy at `s.nextId` carrying that
same content; exactly the pre-save-draft and post-publish signals of the
inner publish are emitted. -/
lemma revert_spec (s : Store) (dpk ppk : Nat) (d p : PRecord)
    (hbound : ∀ r ∈ s.recs, r.pk < s.nextId)
    (hget : s.get dpk = some d)
    (hlink : d.publisher_linked = some ppk)
    (hp : s.get ppk = some p)
    (hplink : p.publisher_linked = none)
    (hne_dp : dpk ≠ ppk) :
    ∃ s' ret,
      revert_to_public s dpk = some (s', some ret) ∧
        ret.pk = ppk ∧
          ret.publisher_is_draft = true ∧
            ret.content = p.content ∧
              ret.publisher_linked = some s.nextId ∧
                s'.get ppk = some ret ∧
                  s'.get dpk = none ∧
                    ((s'.get s.nextId).map fun q =>
                      (q.publisher_is_draft, q.content)) =
                        some (false, p.content) ∧
                      s'.signals =
                        s.signals ++
                          [Signal.preSaveDraft, Signal.postPublish] := by
  have hdpk : d.pk = dpk := lookupRec_pk hget
  have hppk : p.pk = ppk := lookupRec_pk hp
  have hrev0 := revert_eq_main hget hlink hp
  set T := saveRecord ((saveRecord s
      { d with publisher_linked := none } false).deleteRow dpk)
    { p with publisher_is_draft := true } false with hT
  have hb1 : ∀ r ∈ (saveRecord s
      { d with publisher_linked := none } false).recs, r.pk < s.nextId := by
    rw [saveRecord_recs_false]
    refine setRowList_bound hbound ?_
    show d.pk < s.nextId
    have := hbound d (lookupRec_mem hget)
    omega
  have hb2 : ∀ r ∈ ((saveRecord s
      { d with publisher_linked := none } false).deleteRow dpk).recs,
      r.pk < s.nextId := by
    intro r hr
    exact hb1 r (deleteRowList_subset r hr)
  have hbT : ∀ r ∈ T.recs, r.pk < s.nextId := by
    rw [hT, saveRecord_recs_false]
    refine setRowList_bound hb2 ?_
    show p.pk < s.nextId
    have := hbound p (lookupRec_mem hp)
    omega
  have hTnext : T.nextId = s.nextId := by
    rw [hT, saveRecord_nextId, Store.deleteRow_nextId, saveRecord_nextId]
  have hbT' : ∀ r ∈ T.recs, r.pk < T.nextId := by
    rw [hTnext]; exact hbT
  have hTp : T.get ppk = some { p with
      publisher_is_draft := true
      publisher_modified_at :=
        ((saveRecord s { d with publisher_linked := none }
          false).deleteRow dpk).clock } := by
    rw [← hppk]
    exact saveRecord_get_false_self _ { p with publisher_is_draft := true }
  obtain ⟨hpub, h41, h42, h43, h44⟩ :=
    promoted_publish_spec T ppk _ hbT' hTp rfl (by simp [hplink])
  rw [hpub] at hrev0
  simp only at hrev0
  rw [Option.map_eq_some'] at h41
  obtain ⟨ret, hret, hfields⟩ := h41
  simp only [Prod.mk.injEq] at hfields
  obtain ⟨f1, f2, f3, f4, f5⟩ := hfields
  refine ⟨publishBody T ppk _, ret, by rw [hrev0, hret], ?_, f2, ?_, ?_,
    hret, ?_, ?_, ?_⟩
  · rw [f1]
    exact hppk
  · rw [f3]
  · rw [f4, hTnext]
  · have hd2 : dpk ≠ T.nextId := by
      rw [hTnext]
      have := hbound d (lookupRec_mem hget)
      omega
    rw [h43 dpk hne_dp hd2, hT]
    have hpne : dpk ≠ ({ p with publisher_is_draft := true } : PRecord).pk := by
      show dpk ≠ p.pk
      rw [hppk]
      exact hne_dp
    rw [saveRecord_get_ne _ _ _ hpne]
    show lookupRec (deleteRowList _ dpk) dpk = none
    exact lookupRec_deleteRowList_self
  · rw [hTnext] at h42
    exact h42
  · rw [h44, hT, saveRecord_signals, Store.deleteRow_signals,
      saveRecord_signals]

/-! Claim theorems. -/

/-- Claim C1: the spec says the dirtiness check inspects related children
recursively through both collections to arbitrary depth, so a draft with a
descendant whose `modified - created` exceeds 5 seconds must have
`isDirty = true`. The code cannot report it: the recursive call at
models.py line 90 discards its return value and reads the child collection
accessors from `self` instead of `obj` (line 85), so on this input — a
clean direct one-to-many child owning a grandchild with delta 10 — the
check fails (an `AttributeError` in the source, `none` here) rather than
returning `true`. -/
theorem C1_deep_edit_not_reported :
    tdelta c1grand > 5 ∧
      c1draft.publisher_modified_at ≤ c1pub.publisher_modified_at ∧
        is_dirty c1store c1draft = none :=
  ⟨by decide, by decide, rfl⟩

/-- Claim C7: for a clean linked draft with a single direct many-to-many
child whose delta is at most 5 seconds, the claim says `isDirty` is false.
Instead `check_reverse_m2m_dirty` never returns: it ignores its `obj`
parameter (models.py lines 94-96) and the recursion at line 101 repeats the
identical call, so no fuel suffices and `is_dirty` diverges (a
`RecursionError` in CPython) instead of returning `false`. -/
theorem C7_m2m_threshold_check_diverges :
    tdelta c7child ≤ 5 ∧
      (∀ fuel, check_reverse_m2m_dirty c7draft fuel = none) ∧
        is_dirty c7store c7draft = none := by
  refine ⟨by decide, ?_, rfl⟩
  exact check_reverse_m2m_dirty_diverges c7draft rfl (by decide)

/-- Claim C2, counterexample: republish a dirty linked draft. Afterwards
two published rows exist, the previous published row (pk 1) is still in
storage, and the draft merely points at the new row (pk 2): the previous
published record is not retired, refuting "exactly one published record
exists ... the previous published row and its relation clones are retired,
not accumulated". -/
theorem C2_cex_republish_accumulates :
    rpDraft.publisher_linked = some rpPub.pk ∧
      is_dirty republishStore rpDraft = some true ∧
        (publish republishStore 0).map (fun t =>
          ((t.recs.filter fun r => !r.publisher_is_draft).length,
            (t.get 1).map scalarRow,
            (t.get 0).map PRecord.publisher_linked)) =
          some (2, some (scalarRow rpPub), some (some 2)) :=
  ⟨rfl, rfl, rfl⟩

/-- Claim C2, amended: after `publish` completes on a dirty linked draft, a
newly created published record holds a copy of the draft's data and the
draft's link references it — but the previously linked published row is
not deleted; it remains in storage unchanged (it accumulates; on a backend
enforcing the one-to-one uniqueness of the link column the insert would
instead fail, see C3). -/
theorem C2_amended_republish (s : Store) (pk lpk : Nat) (d p : PRecord)
    (hWF : s.WF) (hget : s.get pk = some d)
    (hdraft : d.publisher_is_draft = true)
    (hlink : d.publisher_linked = some lpk)
    (hp : s.get lpk = some p) (hpd : p.publisher_is_draft = false)
    (hdirty : is_dirty s d = some true) :
    publish s pk = some (publishBody s pk d) ∧
      ((publishBody s pk d).get pk).map PRecord.publisher_linked =
        some (some s.nextId) ∧
      ((publishBody s pk d).get s.nextId).map (fun q =>
        (q.publisher_is_draft, q.content, q.publisher_published_at)) =
        some (false, d.content, d.publisher_published_at) ∧
      (publishBody s pk d).get lpk = some p := by
  have hdpk : d.pk = pk := lookupRec_pk hget
  have hdlt : pk < s.nextId := by
    have := (hWF.2 d (lookupRec_mem hget)).1
    omega
  have hfresh : s.get s.nextId = none :=
    lookupRec_none_of_bound (fun r hr => (hWF.2 r hr).1)
  have hne : pk ≠ s.nextId := by omega
  obtain ⟨b1, b2, b3, b4, b5⟩ := publishBody_spec s pk d hget hfresh hne
  have hlne : lpk ≠ pk := by
    intro hh
    rw [hh, hget] at hp
    injection hp with hdp
    rw [← hdp, hdraft] at hpd
    cases hpd
  have hlplt : lpk < s.nextId := by
    have h1 := (hWF.2 p (lookupRec_mem hp)).1
    have h2 : p.pk = lpk := lookupRec_pk hp
    omega
  refine ⟨publish_eq_body hget hdraft hdirty, ?_, ?_, ?_⟩
  · rw [b1]
    simp
  · cases hq : (publishBody s pk d).get s.nextId with
    | none => rw [hq] at b2; simp at b2
    | some q =>
      rw [hq] at b2
      simp only [Option.map_some', scalarRow, Option.some.injEq,
        Prod.mk.injEq] at b2
      obtain ⟨e1, e2, e3, e4, e5, e6⟩ := b2
      simp only [Option.map_some', Option.some.injEq, Prod.mk.injEq]
      refine ⟨e2, e6, ?_⟩
      rw [e5]
      simp [pubAt, hlink]
  · rw [b4 lpk hlne (by omega)]
    exact hp

/-- Witness for the amended C2 on the concrete republish store. -/
theorem C2_amended_witness :
    publish republishStore 0 = some (publishBody republishStore 0 rpDraft) ∧
      ((publishBody republishStore 0 rpDraft).get 0).map
          PRecord.publisher_linked =
        some (some republishStore.nextId) ∧
      ((publishBody republishStore 0 rpDraft).get
          republishStore.nextId).map (fun q =>
        (q.publisher_is_draft, q.content, q.publisher_published_at)) =
        some (false, rpDraft.content, rpDraft.publisher_published_at) ∧
      (publishBody republishStore 0 rpDraft).get 1 = some rpPub :=
  C2_amended_republish republishStore 0 1 rpDraft rpPub
    (by constructor <;> decide) rfl rfl rfl rfl rfl rfl

/-- Claim C3: `publisher_publish_empty_fields` is only `pk` and `id`
(models.py lines 44-47), so the published copy made at lines 120-124
inherits the draft's stored `publisher_linked` unchanged. On a republish of
a linked draft the new published row therefore carries a forward link (to
the previous published row), where the claim and the declared one-to-one
uniqueness of the column require it absent — on an enforcing backend the
insert at line 127 would raise `IntegrityError` instead. -/
theorem C3_published_copy_carries_link :
    rpDraft.publisher_linked = some 1 ∧
      (publish republishStore 0).map (fun t =>
        (t.get 2).map fun q => (q.publisher_is_draft, q.publisher_linked)) =
        some (some (false, some 1)) :=
  ⟨rfl, rfl⟩

/-- Claim C4, counterexample: a draft owning a one-to-many child with
`modified - created = 10` seconds stays dirty forever (the child
timestamps never change), so the second of two back-to-back `publish`
calls with no intervening edits is not a no-op: it inserts a third row,
where a single call leaves two. -/
theorem C4_cex_second_publish_not_noop :
    ((publish c4store 0).bind fun t => publish t 0).map
        (fun t => t.recs.length) = some 3 ∧
      (publish c4store 0).map (fun t => t.recs.length) = some 2 ∧
        (publish c4store 0).map (fun t =>
          (t.get 0).map fun r => is_dirty t r) = some (some (some true)) :=
  ⟨rfl, rfl, rfl⟩

/-- Claim C4, amended: for a draft with no related child records, calling
`publish` twice in succession with no intervening edits produces the same
state as calling it once — after the first call the draft is saved with its
modified stamp suppressed, so `is_dirty` is false and the second call
no-ops. (With an over-threshold child the draft stays dirty and the second
call republishes, see the counterexample.) -/
theorem C4_amended_idempotent_childless (s : Store) (pk : Nat) (d : PRecord)
    (hWF : s.WF) (hget : s.get pk = some d)
    (hfk : d.fkChildren = []) (hm2m : d.m2mChildren = []) :
    (publish s pk).bind (fun t => publish t pk) = publish s pk := by
  cases hd : d.publisher_is_draft with
  | false =>
    have h := publish_nondraft hget hd
    rw [h]
    simpa using h
  | true =>
    cases hi : is_dirty s d with
    | none =>
      have h : publish s pk = none := by simp [publish, hget, hd, hi]
      rw [h]
      rfl
    | some b =>
      cases b with
      | false =>
        have h := publish_clean hget hi
        rw [h]
        simpa using h
      | true =>
        have hpub := publish_eq_body hget hd hi
        have hdpk : d.pk = pk := lookupRec_pk hget
        have hplt : pk < s.nextId := by
          have := (hWF.2 d (lookupRec_mem hget)).1
          omega
        have hfresh : s.get s.nextId = none :=
          lookupRec_none_of_bound (fun r hr => (hWF.2 r hr).1)
        have hne : pk ≠ s.nextId := by omega
        obtain ⟨b1, b2, b3, b4, b5⟩ := publishBody_spec s pk d hget hfresh hne
        rw [hpub]
        simp only [Option.some_bind]
        cases hq : (publishBody s pk d).get s.nextId with
        | none => rw [hq] at b2; simp at b2
        | some q =>
          rw [hq] at b2
          simp only [Option.map_some', scalarRow, Option.some.injEq,
            Prod.mk.injEq] at b2
          obtain ⟨e1, e2, e3, e4, e5, e6⟩ := b2
          have hmodlt : d.publisher_modified_at < s.clock :=
            (hWF.2 d (lookupRec_mem hget)).2.1
          have hstamp := pubStamp_ge s d
          have hclean : is_dirty (publishBody s pk d)
              { d with
                publisher_published_at := pubAt s d
                publisher_linked := some s.nextId } = some false := by
            refine is_dirty_clean _ hd rfl hq ?_ hfk hm2m
            show ¬ q.publisher_modified_at < d.publisher_modified_at
            omega
          exact publish_clean b1 hclean

/-- Witness for the amended C4 on a childless never-published draft. -/
theorem C4_amended_witness :
    (publish w4store 0).bind (fun t => publish t 0) = publish w4store 0 :=
  C4_amended_idempotent_childless w4store 0 w4draft
    (by constructor <;> decide) rfl rfl rfl

/-- Claim C6: for an unpublished draft, `publish` then `unpublish` restores
`publisher_linked = none` and `publisher_published_at = none` on the draft
row, and the published row that `publish` created at the fresh identity
`s.nextId` no longer exists in storage. -/
theorem C6_publish_unpublish_roundtrip (s : Store) (pk : Nat) (d : PRecord)
    (hWF : s.WF) (hget : s.get pk = some d)
    (hdraft : d.publisher_is_draft = true)
    (hlink : d.publisher_linked = none) :
    publish s pk = some (publishBody s pk d) ∧
      ((publishBody s pk d).get s.nextId).map PRecord.publisher_is_draft =
        some false ∧
      ((unpublish (publishBody s pk d) pk).get pk).map (fun r =>
        (r.publisher_linked, r.publisher_published_at)) =
        some (none, none) ∧
      (unpublish (publishBody s pk d) pk).get s.nextId = none := by
  have hdpk : d.pk = pk := lookupRec_pk hget
  have hplt : pk < s.nextId := by
    have := (hWF.2 d (lookupRec_mem hget)).1
    omega
  have hfresh : s.get s.nextId = none :=
    lookupRec_none_of_bound (fun r hr => (hWF.2 r hr).1)
  have hne : pk ≠ s.nextId := by omega
  obtain ⟨b1, b2, b3, b4, b5⟩ := publishBody_spec s pk d hget hfresh hne
  have hu := unpublish_eq_main b1 hdraft rfl
  refine ⟨publish_eq_body hget hdraft (is_dirty_unlinked s hdraft hlink),
    ?_, ?_, ?_⟩
  · cases hq : (publishBody s pk d).get s.nextId with
    | none => rw [hq] at b2; simp at b2
    | some q =>
      rw [hq] at b2
      simp only [Option.map_some', scalarRow, Option.some.injEq,
        Prod.mk.injEq] at b2
      simp [b2.2.1]
  · rw [hu, Store.get_emit]
    have h2 : (saveRecord
        (((publishBody s pk d).emit .preUnpublish).deleteRow s.nextId)
        { { d with
            publisher_published_at := pubAt s d
            publisher_linked := some s.nextId } with
          publisher_linked := none
          publisher_published_at := none } false).get pk =
        some { { { d with
            publisher_published_at := pubAt s d
            publisher_linked := some s.nextId } with
          publisher_linked := none
          publisher_published_at := none } with
          publisher_modified_at :=
            (((publishBody s pk d).emit .preUnpublish).deleteRow
              s.nextId).clock } := by
      rw [← hdpk]
      exact saveRecord_get_false_self _ _
    rw [h2]
    simp
  · rw [hu, Store.get_emit]
    have hnid : s.nextId ≠ ({ { d with
        publisher_published_at := pubAt s d
        publisher_linked := some s.nextId } with
      publisher_linked := none
      publisher_published_at := none } : PRecord).pk := by
      show s.nextId ≠ d.pk
      rw [hdpk]
      omega
    rw [saveRecord_get_ne _ _ _ hnid]
    show lookupRec (deleteRowList _ s.nextId) s.nextId = none
    exact lookupRec_deleteRowList_self

/-- Witness for C6 on a childless never-published draft. -/
theorem C6_witness :
    publish w4store 0 = some (publishBody w4store 0 w4draft) ∧
      ((publishBody w4store 0 w4draft).get w4store.nextId).map
          PRecord.publisher_is_draft = some false ∧
      ((unpublish (publishBody w4store 0 w4draft) 0).get 0).map (fun r =>
        (r.publisher_linked, r.publisher_published_at)) =
        some (none, none) ∧
      (unpublish (publishBody w4store 0 w4draft) 0).get w4store.nextId =
        none :=
  C6_publish_unpublish_roundtrip w4store 0 w4draft
    (by constructor <;> decide) rfl rfl rfl

/-- Claim C5: edit a linked draft's content without publishing, then call
`revert_to_public`. The original draft row is gone; the operation returns
the promoted record, which keeps the published record's identity (distinct
from the draft's) and its pre-revert content — not the edited value — is a
draft again, and is linked to a fresh published counterpart carrying that
same content, so a linked pair exists again. -/
theorem C5_revert_discards_edits (s : Store) (dpk ppk v : Nat)
    (d p : PRecord) (hWF : s.WF) (hget : s.get dpk = some d)
    (hdraft : d.publisher_is_draft = true)
    (hlink : d.publisher_linked = some ppk)
    (hp : s.get ppk = some p)
    (hpd : p.publisher_is_draft = false)
    (hplink : p.publisher_linked = none)
    (hv : v ≠ p.content) :
    (revertAfterEdit s d v).map (fun pr => (pr.1.get dpk).isNone) =
        some true ∧
      (revertAfterEdit s d v).map (fun pr => pr.2.map (fun r =>
          (r.pk, r.publisher_is_draft, r.content, r.publisher_linked))) =
        some (some (ppk, true, p.content, some s.nextId)) ∧
      (revertAfterEdit s d v).map (fun pr => (pr.1.get s.nextId).map
          (fun q => (q.publisher_is_draft, q.content))) =
        some (some (false, p.content)) ∧
      p.content ≠ v ∧ ppk ≠ dpk := by
  have hdpk : d.pk = dpk := lookupRec_pk hget
  have hne_dp : dpk ≠ ppk := by
    intro hh
    rw [hh, hp] at hget
    injection hget with he
    rw [← he, hpd] at hdraft
    cases hdraft
  have hEget : (saveRecord s { d with content := v } false).get dpk =
      some { { d with content := v } with
        publisher_modified_at := s.clock } := by
    rw [← hdpk]
    exact saveRecord_get_false_self s { d with content := v }
  have hEp : (saveRecord s { d with content := v } false).get ppk =
      some p := by
    have hpne : ppk ≠ ({ d with content := v } : PRecord).pk := by
      show ppk ≠ d.pk
      rw [hdpk]
      exact fun hh => hne_dp hh.symm
    rw [saveRecord_get_ne _ _ _ hpne]
    exact hp
  have hEbound : ∀ r ∈ (saveRecord s { d with content := v } false).recs,
      r.pk < (saveRecord s { d with content := v } false).nextId := by
    rw [saveRecord_nextId, saveRecord_recs_false]
    refine setRowList_bound (fun r hr => (hWF.2 r hr).1) ?_
    show d.pk < s.nextId
    have := (hWF.2 d (lookupRec_mem hget)).1
    omega
  obtain ⟨s', ret, hrev, hretpk, hretdraft, hretcont, hretlink, hgetp,
    hgetd, hmapn, hsig⟩ :=
    revert_spec (saveRecord s { d with content := v } false) dpk ppk _ p
      hEbound hEget hlink hEp hplink hne_dp
  rw [saveRecord_nextId] at hretlink hmapn
  have hRA : revertAfterEdit s d v = some (s', some ret) := by
    rw [revertAfterEdit]
    rw [← hdpk] at hrev
    exact hrev
  refine ⟨?_, ?_, ?_, fun hh => hv hh.symm, fun hh => hne_dp hh.symm⟩
  · rw [hRA]
    simp [hgetd]
  · rw [hRA]
    simp [hretpk, hretdraft, hretcont, hretlink]
  · rw [hRA]
    simp only [Option.map_some']
    rw [hmapn]

/-- Witness for C5 on the concrete draft/published pair, editing the
content to 100. -/
theorem C5_witness :
    (revertAfterEdit republishStore rpDraft 100).map
        (fun pr => (pr.1.get 0).isNone) = some true ∧
      (revertAfterEdit republishStore rpDraft 100).map (fun pr =>
          pr.2.map (fun r =>
            (r.pk, r.publisher_is_draft, r.content, r.publisher_linked))) =
        some (some (1, true, rpPub.content, some republishStore.nextId)) ∧
      (revertAfterEdit republishStore rpDraft 100).map (fun pr =>
          (pr.1.get republishStore.nextId).map
            (fun q => (q.publisher_is_draft, q.content))) =
        some (some (false, rpPub.content)) ∧
      rpPub.content ≠ 100 ∧ (1 : Nat) ≠ 0 :=
  C5_revert_discards_edits republishStore 0 1 100 rpDraft rpPub
    (by constructor <;> decide) rfl rfl rfl rfl rfl rfl (by decide)

/-- Claim C8, amended: `publish` and `unpublish` each independently no-op
when invoked on a non-draft record, and `unpublish` and `revert_to_public`
each no-op when the record lacks the link the operation requires. But
`revert_to_public`'s own body checks only the link, not the draft flag
(models.py line 164): the non-draft case for revert is guarded only by the
`assert_draft` decorator; with the body reached on a published record that
carries a link, persisted state is mutated (see the counterexample). -/
theorem C8_amended_guards :
    (∀ s pk r, s.get pk = some r → r.publisher_is_draft = false →
        publish s pk = some s ∧ unpublish s pk = s) ∧
      ∀ s pk r, s.get pk = some r → r.publisher_linked = none →
        unpublish s pk = s ∧ revert_to_public s pk = some (s, none) := by
  constructor
  · intro s pk r hg hd
    exact ⟨publish_nondraft hg hd, unpublish_nondraft hg hd⟩
  · intro s pk r hg hl
    exact ⟨unpublish_unlinked hg hl, revert_unlinked hg hl⟩

/-- Claim C8, counterexample: `revert_to_public` invoked on a record that
is not a draft but carries a link (the very shape a republish creates, see
C3) does not leave persisted state unchanged: the record's row is deleted
and the linked record is promoted to a draft. -/
theorem C8_cex_revert_on_published :
    c8rec.publisher_is_draft = false ∧
      c8store.get 0 = some c8rec ∧
        (revert_to_public c8store 0).map (fun pr =>
          ((pr.1.get 0).isNone, (pr.1.get 1).map PRecord.publisher_is_draft)) =
          some (true, some true) :=
  ⟨rfl, rfl, rfl⟩

/-- Witness for the amended C8 on the concrete published record `rpPub`
(not a draft, no link). -/
theorem C8_amended_witness :
    (publish republishStore 1 = some republishStore ∧
        unpublish republishStore 1 = republishStore) ∧
      unpublish republishStore 1 = republishStore ∧
        revert_to_public republishStore 1 = some (republishStore, none) :=
  ⟨C8_amended_guards.1 republishStore 1 rpPub rfl rfl,
    C8_amended_guards.2 republishStore 1 rpPub rfl rfl⟩

/-- Claim C9: the cloners write only the destination row — every other
row, in particular the source and with it all its owned child rows, reads
back unchanged — and after `publish` the draft row's child identities and
the published copy's child identities are disjoint, so editing a child on
either side leaves the other side's stored row untouched. -/
theorem C9_clone_independence :
    (∀ s a b p, p ≠ b →
        (clone_relations s a b).get p = s.get p ∧
          (clone_translations s a b).get p = s.get p) ∧
      ∀ s pk d v, s.WF → s.get pk = some d →
        d.publisher_is_draft = true → is_dirty s d = some true →
        publish s pk = some (publishBody s pk d) ∧
          rowChildIds ((publishBody s pk d).get pk) = recordChildIds d ∧
          ∀ i ∈ rowChildIds ((publishBody s pk d).get pk),
            i ∉ rowChildIds ((publishBody s pk d).get s.nextId) ∧
              (updateChildRow (publishBody s pk d) i v).get s.nextId =
                (publishBody s pk d).get s.nextId ∧
              ∀ j ∈ rowChildIds ((publishBody s pk d).get s.nextId),
                (updateChildRow (publishBody s pk d) j v).get pk =
                  (publishBody s pk d).get pk := by
  constructor
  · intro s a b p hpb
    exact ⟨clone_relations_get_ne s a b hpb,
      clone_translations_get_ne s a b hpb⟩
  · intro s pk d v hWF hget hdraft hdirty
    have hdpk : d.pk = pk := lookupRec_pk hget
    have hplt : pk < s.nextId := by
      have := (hWF.2 d (lookupRec_mem hget)).1
      omega
    have hfresh : s.get s.nextId = none :=
      lookupRec_none_of_bound (fun r hr => (hWF.2 r hr).1)
    have hne : pk ≠ s.nextId := by omega
    obtain ⟨b1, b2, b3, b4, b5⟩ := publishBody_spec s pk d hget hfresh hne
    refine ⟨publish_eq_body hget hdraft hdirty, by rw [b1]; rfl, ?_⟩
    intro i hi
    rw [b1] at hi
    have hi' : i ∈ recordChildIds d := hi
    have hilt : i < s.nextId :=
      (hWF.2 d (lookupRec_mem hget)).2.2 i hi'
    cases hq : (publishBody s pk d).get s.nextId with
    | none => rw [hq] at b2; simp at b2
    | some q =>
      have hids := b3 q hq
      refine ⟨?_, ?_, ?_⟩
      · intro hmem
        have := hids i hmem
        omega
      · exact updateChildRow_get_miss hq
          (by intro hmem; have := hids i hmem; omega)
      · intro j hj
        have hjge := hids j hj
        rw [b1]
        refine updateChildRow_get_miss b1 ?_
        intro hmem
        have hm' : j ∈ recordChildIds d := hmem
        have := (hWF.2 d (lookupRec_mem hget)).2.2 j hm'
        omega

/-- Witness for C9 on the concrete draft owning child 5; the clone of that
child in the published copy receives the fresh identity 7. -/
theorem C9_witness :
    (clone_relations c4store 0 1).get 0 = c4store.get 0 ∧
      (clone_translations c4store 0 1).get 0 = c4store.get 0 ∧
        publish c4store 0 = some (publishBody c4store 0 c4draft) ∧
          rowChildIds ((publishBody c4store 0 c4draft).get 0) =
              recordChildIds c4draft ∧
            5 ∉ rowChildIds
                ((publishBody c4store 0 c4draft).get c4store.nextId) ∧
              (updateChildRow (publishBody c4store 0 c4draft) 5
                  99).get c4store.nextId =
                  (publishBody c4store 0 c4draft).get c4store.nextId ∧
                (updateChildRow (publishBody c4store 0 c4draft) 7
                    99).get 0 =
                  (publishBody c4store 0 c4draft).get 0 := by
  have h1 := C9_clone_independence.1 c4store 0 1 0 (by decide)
  have h2 := C9_clone_independence.2 c4store 0 c4draft 99
    (by constructor <;> decide) rfl rfl rfl
  have h3 := h2.2.2 5 (by decide)
  exact ⟨h1.1, h1.2, h2.1, h2.2.1, h3.1, h3.2.1, h3.2.2 7 (by decide)⟩

/-- Claim C10: a `revert_to_public` run can only ever add the
pre-save-draft and post-publish signals of its inner `publish` to the log
(never the pre-unpublish or post-unpublish signals), and on a well-formed
linked pair a successful revert emits exactly those two, in order. -/
theorem C10_revert_signal_trace :
    (∀ s pk out, revert_to_public s pk = some out →
        out.1.signals = s.signals ∨
          out.1.signals =
            s.signals ++ [Signal.preSaveDraft, Signal.postPublish]) ∧
      ∀ s dpk ppk d p, (∀ r ∈ s.recs, r.pk < s.nextId) →
        s.get dpk = some d → d.publisher_linked = some ppk →
        s.get ppk = some p → p.publisher_linked = none → dpk ≠ ppk →
        (revert_to_public s dpk).map (fun out => out.1.signals) =
          some (s.signals ++ [Signal.preSaveDraft, Signal.postPublish]) := by
  constructor
  · intro s pk out h
    exact revert_signals_cases h
  · intro s dpk ppk d p hb hg hl hp hpl hne
    obtain ⟨s', ret, hrev, -, -, -, -, -, -, -, hsig⟩ :=
      revert_spec s dpk ppk d p hb hg hl hp hpl hne
    rw [hrev]
    simp [hsig]

/-- Witness for C10 on the concrete draft/published pair. -/
theorem C10_witness :
    (revert_to_public republishStore 0).map (fun out => out.1.signals) =
      some (republishStore.signals ++
        [Signal.preSaveDraft, Signal.postPublish]) :=
  C10_revert_signal_trace.2 republishStore 0 1 rpDraft rpPub (by decide)
    rfl rfl rfl rfl (by decide)

end Publisher
